import Mathlib

set_option maxRecDepth 10000

/-!
Verification development for a two-pass assembler (src/assembler.py).

The Python source is shallowly embedded below.  Lines are `String`s; the
regular expressions of `parse`/`parseLabel` (which are all anchored prefix
matches via re.match) are embedded as deterministic matchers on `List Char`.
Determinism is faithful because within each alternation of the source
regexes no alternative is a prefix of another alternative, so at most one
alternative can match at a given position.  Machine integers are `Int`/`Nat`
(Python ints are unbounded anyway); Python `RuntimeError` is `Except`/an
explicit error outcome; an uncaught Python `IndexError` (reachable, e.g. on
the line consisting only of a mnemonic followed by a colon) is modelled by
the `Outcome.crash` constructor and an `Option` result for the second pass.
-/

/-- ASCII whitespace stripped by Python str.strip() (the inputs are ASCII). -/
def isPySpace (c : Char) : Bool :=
  c = ' ' || c = '\t' || c = '\n' || c = '\x0b' || c = '\x0c' || c = '\r'

/-- Python str.strip(): drop whitespace from both ends. -/
def pyStrip (l : List Char) : List Char :=
  ((l.dropWhile isPySpace).reverse.dropWhile isPySpace).reverse

/-- str.strip() on `String`s. -/
def pyStripStr (s : String) : String := String.mk (pyStrip s.data)

/-- Python str.find(c): index of the first occurrence, if any (None plays -1). -/
def pyFind (l : List Char) (c : Char) : Option Nat :=
  match l with
  | [] => none
  | a :: t => if a = c then some 0 else (pyFind t c).map (· + 1)

/-- Value of a decimal digit string (the strings fed to it match [0-9]+). -/
def digitsToNat (l : List Char) : Nat :=
  l.foldl (fun n c => n * 10 + (c.toNat - '0'.toNat)) 0

/-- Python int() on the strings produced by the grammar ([-]?[0-9]+). -/
def pyInt (s : String) : Int :=
  match s.data with
  | '-' :: ds => - (digitsToNat ds : Int)
  | ds => (digitsToNat ds : Int)

/-- Character class [_a-zA-Z]. -/
def isIdentStart (c : Char) : Bool :=
  c = '_' || ('a' ≤ c && c ≤ 'z') || ('A' ≤ c && c ≤ 'Z')

/-- Character class [_a-zA-Z0-9]. -/
def isIdentCont (c : Char) : Bool :=
  isIdentStart c || ('0' ≤ c && c ≤ '9')

/-- Character class [0-9]. -/
def isDigitC (c : Char) : Bool := '0' ≤ c && c ≤ '9'

/-- Regex fragment ([_a-zA-Z][_a-zA-Z0-9]*): identifier, maximal munch. -/
def matchIdentStar (l : List Char) : Option (List Char × List Char) :=
  match l with
  | c :: t =>
    if isIdentStart c then some (c :: t.takeWhile isIdentCont, t.dropWhile isIdentCont)
    else none
  | [] => none

/-- Regex fragment ([_a-zA-Z][_a-zA-Z0-9]+): identifier of length at least two
(note the + in the source's branch regex, line 58). -/
def matchIdentPlus (l : List Char) : Option (List Char × List Char) :=
  match l with
  | c :: t =>
    if isIdentStart c then
      match t.takeWhile isIdentCont with
      | [] => none
      | run => some (c :: run, t.dropWhile isIdentCont)
    else none
  | [] => none

/-- re.match of r'([_a-zA-Z][_a-zA-Z0-9]*):' — a prefix match: trailing text
after the colon is ignored.  Returns group 1. -/
def parseLabelCore (l : List Char) : Option (List Char) :=
  match matchIdentStar l with
  | some (name, rest) =>
    match rest with
    | ':' :: _ => some name
    | _ => none
  | none => none

/-- parseLabel from the source (line 40), returning the label name (group 1). -/
def parseLabel (line : String) : Option String :=
  (parseLabelCore line.data).map String.mk

/-- Regex fragment [ ]+ (one or more literal spaces, greedy). -/
def spaces1 (l : List Char) : Option (List Char) :=
  match l with
  | c :: t => if c = ' ' then some (t.dropWhile (fun x => x = ' ')) else none
  | [] => none

/-- Regex fragment [ ]* (zero or more literal spaces, greedy). -/
def spaces0 (l : List Char) : List Char := l.dropWhile (fun x => x = ' ')

/-- A single literal character of the regex. -/
def litc (c : Char) (l : List Char) : Option (List Char) :=
  match l with
  | a :: t => if a = c then some t else none
  | [] => none

/-- Ordered alternation of literal words; the word lists used below are
prefix-free, so taking the first alternative that is a prefix is exactly the
regex's backtracking semantics. -/
def firstAlt (ws : List (List Char)) (l : List Char) : Option (List Char × List Char) :=
  match ws with
  | [] => none
  | w :: rest => if w.isPrefixOf l then some (w, l.drop w.length) else firstAlt rest l

/-- Regex fragment (\$t[0-4]|\$zero|\$sp): the register operand class. -/
def matchReg (l : List Char) : Option (List Char × List Char) :=
  match l with
  | '$' :: 't' :: c :: rest =>
    if '0' ≤ c && c ≤ '4' then some (['$', 't', c], rest) else none
  | '$' :: 'z' :: 'e' :: 'r' :: 'o' :: rest => some (['$', 'z', 'e', 'r', 'o'], rest)
  | '$' :: 's' :: 'p' :: rest => some (['$', 's', 'p'], rest)
  | _ => none

/-- Regex fragment ([0-9]+), greedy. -/
def matchDigits (l : List Char) : Option (List Char × List Char) :=
  match l.takeWhile isDigitC with
  | [] => none
  | d :: ds => some (d :: ds, l.dropWhile isDigitC)

/-- Regex fragment ([-]?[0-9]+). -/
def matchSigned (l : List Char) : Option (List Char × List Char) :=
  match l with
  | '-' :: t => (matchDigits t).map (fun p => ('-' :: p.1, p.2))
  | _ => matchDigits l

/-- The R-type mnemonics of the source regex, in alternation order. -/
def rOpsC : List (List Char) :=
  [['o', 'r'], ['s', 'u', 'b'], ['a', 'd', 'd'], ['n', 'o', 'r'], ['a', 'n', 'd']]

/-- The I-type arithmetic mnemonics, in alternation order. -/
def iOpsC : List (List Char) :=
  [['s', 'u', 'b', 'i'], ['o', 'r', 'i'], ['a', 'd', 'd', 'i'], ['a', 'n', 'd', 'i'],
   ['s', 'l', 'l'], ['s', 'r', 'l']]

/-- The memory mnemonics. -/
def memOpsC : List (List Char) := [['l', 'w'], ['s', 'w']]

/-- The branch mnemonics. -/
def brOpsC : List (List Char) := [['b', 'e', 'q'], ['b', 'n', 'e', 'q']]

/-- re.match of the R-type regex (source line 46), returning the groups. -/
def matchRType (l : List Char) : Option (List String) :=
  match firstAlt rOpsC l with
  | none => none
  | some (op, r1) =>
  match spaces1 r1 with
  | none => none
  | some r2 =>
  match matchReg r2 with
  | none => none
  | some (a, r3) =>
  match litc ',' r3 with
  | none => none
  | some r4 =>
  match matchReg (spaces0 r4) with
  | none => none
  | some (b, r5) =>
  match litc ',' r5 with
  | none => none
  | some r6 =>
  match matchReg (spaces0 r6) with
  | none => none
  | some (c, _) =>
  some [String.mk op, String.mk a, String.mk b, String.mk c]

/-- re.match of the I-type arithmetic regex (source line 50). -/
def matchIType (l : List Char) : Option (List String) :=
  match firstAlt iOpsC l with
  | none => none
  | some (op, r1) =>
  match spaces1 r1 with
  | none => none
  | some r2 =>
  match matchReg r2 with
  | none => none
  | some (a, r3) =>
  match litc ',' r3 with
  | none => none
  | some r4 =>
  match matchReg (spaces0 r4) with
  | none => none
  | some (b, r5) =>
  match litc ',' r5 with
  | none => none
  | some r6 =>
  match matchSigned (spaces0 r6) with
  | none => none
  | some (imm, _) =>
  some [String.mk op, String.mk a, String.mk b, String.mk imm]

/-- re.match of the memory regex (source line 54): (lw|sw) reg, digits(reg). -/
def matchMem (l : List Char) : Option (List String) :=
  match firstAlt memOpsC l with
  | none => none
  | some (op, r1) =>
  match spaces1 r1 with
  | none => none
  | some r2 =>
  match matchReg r2 with
  | none => none
  | some (a, r3) =>
  match litc ',' r3 with
  | none => none
  | some r4 =>
  match matchDigits (spaces0 r4) with
  | none => none
  | some (off, r5) =>
  match litc '(' r5 with
  | none => none
  | some r6 =>
  match matchReg r6 with
  | none => none
  | some (b, r7) =>
  match litc ')' r7 with
  | none => none
  | some _ =>
  some [String.mk op, String.mk a, String.mk off, String.mk b]

/-- re.match of the branch regex (source line 58); its label group uses
[_a-zA-Z][_a-zA-Z0-9]+ — at least two characters. -/
def matchBranch (l : List Char) : Option (List String) :=
  match firstAlt brOpsC l with
  | none => none
  | some (op, r1) =>
  match spaces1 r1 with
  | none => none
  | some r2 =>
  match matchReg r2 with
  | none => none
  | some (a, r3) =>
  match litc ',' r3 with
  | none => none
  | some r4 =>
  match matchReg (spaces0 r4) with
  | none => none
  | some (b, r5) =>
  match litc ',' r5 with
  | none => none
  | some r6 =>
  match matchIdentPlus (spaces0 r6) with
  | none => none
  | some (lbl, _) =>
  some [String.mk op, String.mk a, String.mk b, String.mk lbl]

/-- re.match of the jump regex (source line 62): (j)[ ]+(identifier). -/
def matchJ (l : List Char) : Option (List String) :=
  match litc 'j' l with
  | none => none
  | some r1 =>
  match spaces1 r1 with
  | none => none
  | some r2 =>
  match matchIdentStar r2 with
  | none => none
  | some (lbl, _) =>
  some [String.mk ['j'], String.mk lbl]

/-- parse from the source (line 44): try the six shapes in order; the tuple of
groups on success, failure standing for the raised "Unknown instruction
format" RuntimeError. -/
def parse (line : String) : Option (List String) :=
  match matchRType line.data with
  | some g => some g
  | none =>
  match matchIType line.data with
  | some g => some g
  | none =>
  match matchMem line.data with
  | some g => some g
  | none =>
  match matchBranch line.data with
  | some g => some g
  | none =>
  match matchJ line.data with
  | some g => some g
  | none =>
  match parseLabelCore line.data with
  | some name => some [String.mk name]
  | none => none

/-- The OPCODES dict of the source.  The default case is unreachable from the
grammar (a KeyError in Python); it plays no role below. -/
def OPCODES (m : String) : String :=
  match m with
  | "or" => "0000"
  | "subi" => "0001"
  | "ori" => "0010"
  | "sub" => "0011"
  | "add" => "0100"
  | "lw" => "0101"
  | "j" => "0110"
  | "sll" => "0111"
  | "sw" => "1000"
  | "addi" => "1001"
  | "srl" => "1010"
  | "beq" => "1011"
  | "nor" => "1100"
  | "and" => "1101"
  | "andi" => "1110"
  | "bneq" => "1111"
  | _ => ""

/-- The REGISTERS dict of the source. -/
def REGISTERS (r : String) : String :=
  match r with
  | "$zero" => "0000"
  | "$t0" => "0001"
  | "$t1" => "0010"
  | "$t2" => "0011"
  | "$t3" => "0100"
  | "$t4" => "0101"
  | "$sp" => "0110"
  | _ => ""

/-- Little helper for Python's '{0:0wb}'.format(n)[-w:]: the w low bits of n,
most significant first. -/
def natToBits : Nat → Nat → List Char
  | 0, _ => []
  | w + 1, n => natToBits w (n / 2) ++ [if n % 2 = 1 then '1' else '0']

/-- int(s, 2) on a string of 0/1 characters. -/
def bitsVal (l : List Char) : Nat :=
  l.foldl (fun a c => 2 * a + (if c = '1' then 1 else 0)) 0

/-- getRTypeFormat from the source (line 73). -/
def getRTypeFormat (opcode desReg srcReg1 srcReg2 : String) : List String :=
  [OPCODES opcode, REGISTERS srcReg1, REGISTERS srcReg2, REGISTERS desReg]

/-- getITypeFormat from the source (line 78).  int(const) is applied by the
caller (pyInt); the modulo-2^32 adjustment and the final [-4:] slice of
'{0:04b}'.format are natToBits 4. -/
def getITypeFormat (opcode desReg srcReg : String) (constVal : Int) :
    Except String (List String) :=
  if constVal < -8 ∨ 8 ≤ constVal then
    .error ("Immediate value overflow " ++ toString constVal)
  else
    let adjusted := if constVal < 0 then constVal + 4294967296 else constVal
    .ok [OPCODES opcode, REGISTERS srcReg, REGISTERS desReg,
         String.mk (natToBits 4 adjusted.toNat)]

/-- getJTypeFormat from the source (line 91).  The jump address always comes
from the Label Table, hence a Nat. -/
def getJTypeFormat (opcode : String) (jmpAddrVal : Nat) :
    Except String (List String) :=
  if 256 ≤ jmpAddrVal then
    .error ("Jump address overflow " ++ toString jmpAddrVal)
  else
    .ok [OPCODES opcode, String.mk (natToBits 8 jmpAddrVal), "0000"]

/-- Two's-complement reading of a 4-bit field (the decoding direction used by
the spec's branch-offset law; not part of the source). -/
def decode4 (bits : List Char) : Int :=
  let v := bitsVal bits
  if 8 ≤ v then (v : Int) - 16 else (v : Int)

/-- One input line of preassemble (source line 102): optional label split,
then push/pop expansion; the written lines, in order. -/
def preassembleLine (line : String) : List String :=
  let l := line.data
  let split : Option (List Char) × List Char :=
    match pyFind l ':' with
    | some p => if p + 1 < l.length then (some (l.take (p + 1)), pyStrip (l.drop (p + 1)))
                else (none, l)
    | none => (none, l)
  let repl := split.2
  let expanded : List (List Char) :=
    if (repl.take 4).map Char.toLower = ['p', 'u', 's', 'h'] then
      let arg := pyStrip (repl.drop 4)
      [('s' :: 'u' :: 'b' :: 'i' :: ' ' :: '$' :: 's' :: 'p' :: ',' :: ' ' :: '$' :: 's' :: 'p' :: ',' :: ' ' :: '1' :: []),
       ('s' :: 'w' :: ' ' :: []) ++ arg ++ (',' :: ' ' :: '0' :: '(' :: '$' :: 's' :: 'p' :: ')' :: [])]
    else if (repl.take 3).map Char.toLower = ['p', 'o', 'p'] then
      let arg := pyStrip (repl.drop 3)
      [('l' :: 'w' :: ' ' :: []) ++ arg ++ (',' :: ' ' :: '0' :: '(' :: '$' :: 's' :: 'p' :: ')' :: []),
       ('a' :: 'd' :: 'd' :: 'i' :: ' ' :: '$' :: 's' :: 'p' :: ',' :: ' ' :: '$' :: 's' :: 'p' :: ',' :: ' ' :: '1' :: [])]
    else [repl]
  ((split.1.toList) ++ expanded).map String.mk

/-- preassemble (source line 102): the while loop strips each raw line and
stops at the first blank; each surviving line is rewritten. -/
def preassemble (rawLines : List String) : List String :=
  (((rawLines.map pyStripStr).takeWhile (fun l => l ≠ "")).map preassembleLine).flatten

/-- Label Table lookup; pass 1 prepends fresh bindings, so the first hit is
the most recent one, matching Python dict overwrite semantics. -/
def lookupLabel (tbl : List (String × Nat)) (key : String) : Option Nat :=
  match tbl with
  | [] => none
  | (k, v) :: rest => if k = key then some v else lookupLabel rest key

/-- Pass 1 (source lines 143-151): label lines bind the current counter and do
not advance it; every other line advances it by one. -/
def pass1Go (st : List (String × Nat) × Nat) : List String → List (String × Nat) × Nat
  | [] => st
  | l :: ls =>
    match parseLabel (pyStripStr l) with
    | some name => pass1Go ((name, st.2) :: st.1, st.2) ls
    | none => pass1Go (st.1, st.2 + 1) ls

/-- Pass 1 from the empty table and address 0. -/
def pass1 (lines : List String) : List (String × Nat) × Nat := pass1Go ([], 0) lines

/-- Number of lines of a sequence that pass 1 treats as instructions. -/
def nonLabelCount (lines : List String) : Nat :=
  lines.countP (fun l => (parseLabel (pyStripStr l)).isNone)

/-- What the pass-2 loop body does with one line: an encoded word, a skipped
label, a caught RuntimeError diagnostic, or an uncaught IndexError. -/
inductive Outcome where
  | word : List String → Outcome
  | label : Outcome
  | err : String → Outcome
  | crash : Outcome
deriving DecidableEq

/-- The dispatch on tk[0] in the pass-2 loop body (source lines 162-194).
Tuple indexing mirrors the Python: an index beyond the end of the group tuple
is an uncaught IndexError, i.e. crash. -/
def dispatchLine (labels : List (String × Nat)) (lineNo : Nat) (tk : List String) : Outcome :=
    match tk.get? 0 with
    | none => .crash
    | some op =>
      if op ∈ ["or", "sub", "add", "nor", "and"] then
        match tk.get? 1, tk.get? 2, tk.get? 3 with
        | some d, some s1, some s2 => .word (getRTypeFormat op d s1 s2)
        | _, _, _ => .crash
      else if op ∈ ["subi", "ori", "addi", "andi", "sll", "srl"] then
        match tk.get? 1, tk.get? 2, tk.get? 3 with
        | some d, some s, some c =>
          match getITypeFormat op d s (pyInt c) with
          | .ok f => .word f
          | .error e => .err e
        | _, _, _ => .crash
      else if op ∈ ["lw", "sw"] then
        match tk.get? 1, tk.get? 2, tk.get? 3 with
        | some d, some c, some s =>
          match getITypeFormat op d s (pyInt c) with
          | .ok f => .word f
          | .error e => .err e
        | _, _, _ => .crash
      else if op ∈ ["beq", "bneq"] then
        match tk.get? 3 with
        | none => .crash
        | some jumpLabel =>
          match lookupLabel labels jumpLabel with
          | none => .err "Unrecognized label"
          | some addr =>
            match tk.get? 1, tk.get? 2 with
            | some d, some s =>
              match getITypeFormat op d s ((addr : Int) - ((lineNo : Int) + 1)) with
              | .ok f => .word f
              | .error e => .err e
            | _, _ => .crash
      else if op = "j" then
        match tk.get? 1 with
        | none => .crash
        | some jumpLabel =>
          match lookupLabel labels jumpLabel with
          | none => .err "Unrecognized label"
          | some addr =>
            match getJTypeFormat op addr with
            | .ok f => .word f
            | .error e => .err e
      else
        .label

/-- The try-block of the pass-2 loop (source lines 159-203) for a single line
at pass-2 address lineNo: strip, parse, dispatch on the mnemonic. -/
def encodeLine (labels : List (String × Nat)) (lineNo : Nat) (line : String) : Outcome :=
  let stripped := pyStripStr line
  match parse (pyStripStr stripped) with
  | none => .err "Unknown instruction format"
  | some tk => dispatchLine labels lineNo tk

/-- Join of the format fields with the spaces removed, parsed base 2 and
emitted as two bytes, big-endian (source lines 197-198). -/
def fmtToBytes (fmt : List String) : List Nat :=
  let v := bitsVal (fmt.map String.data).flatten
  [v / 256, v % 256]

/-- The pass-2 loop (source lines 156-207): state is (bytes written so far,
address counter, error flag); none models the program dying on an uncaught
IndexError. -/
def pass2Go (labels : List (String × Nat)) :
    List Nat × Nat × Bool → List String → Option (List Nat × Nat × Bool)
  | st, [] => some st
  | (out, n, err), l :: ls =>
    match encodeLine labels n l with
    | .word fmt => pass2Go labels (out ++ fmtToBytes fmt, n + 1, err) ls
    | .label => pass2Go labels (out, n, err) ls
    | .err _ => pass2Go labels (out, n, true) ls
    | .crash => none

/-- Pass 2 from an empty output, address 0 and no error. -/
def pass2 (labels : List (String × Nat)) (lines : List String) :
    Option (List Nat × Nat × Bool) :=
  pass2Go labels ([], 0, false) lines

/-- The per-line record of a pass-2 run (the printed diagnostics/trace),
used to state properties of the loop. -/
def pass2Outcomes (labels : List (String × Nat)) : Nat → List String → List Outcome
  | _, [] => []
  | n, l :: ls =>
    match encodeLine labels n l with
    | .word f => .word f :: pass2Outcomes labels (n + 1) ls
    | o => o :: pass2Outcomes labels n ls

/-- Outcome classifiers. -/
def isWordO : Outcome → Bool
  | .word _ => true
  | _ => false

def isErrO : Outcome → Bool
  | .err _ => true
  | _ => false

/-- Number of successfully encoded lines in a trace. -/
def countWords (os : List Outcome) : Nat := os.countP isWordO

/-- Number of failed lines in a trace. -/
def countErrs (os : List Outcome) : Nat := os.countP isErrO

/-- The bytes written by a trace. -/
def outBytes : List Outcome → List Nat
  | [] => []
  | .word f :: rest => fmtToBytes f ++ outBytes rest
  | _ :: rest => outBytes rest

/-- The final artifact (source lines 210-218): on error the file is removed
(zero bytes); on success the written bytes remain; none if the process died. -/
def assembleOutput (labels : List (String × Nat)) (lines : List String) : Option (List Nat) :=
  match pass2 labels lines with
  | some (out, _, err) => some (if err then [] else out)
  | none => none



/-- C7: the source line add $t0, $zero, $zero classifies as R-type with
operands (add, $t0, $zero, $zero); the R-type encoder places field-A =
code(rs), field-B = code(rt), field-C = code(rd), giving the word
0100 0000 0000 0001, emitted most-significant-byte first as 0x40 0x01. -/
theorem example_add_encoding :
    parse "add $t0, $zero, $zero" = some ["add", "$t0", "$zero", "$zero"] ∧
    getRTypeFormat "add" "$t0" "$zero" "$zero" = ["0100", "0000", "0000", "0001"] ∧
    encodeLine [] 0 "add $t0, $zero, $zero" = .word ["0100", "0000", "0000", "0001"] ∧
    fmtToBytes ["0100", "0000", "0000", "0001"] = [0x40, 0x01] := by
  refine ⟨by decide, by decide, by decide, by decide⟩

/-- C8 (failing evaluation): the branch regex requires the label to have at
least two characters (the + quantifier at source line 58), so the
single-character label L fails classification with an unrecognized
instruction format error, although the same label can be declared and used as
a j target.  This contradicts the claim that any identifier, including a
single-character one, classifies as I-type-branch. -/
theorem branch_label_single_char :
    parse "beq $t0, $t1, L" = none ∧
    parse "beq $t0, $t1, Lb" = some ["beq", "$t0", "$t1", "Lb"] ∧
    parse "j L" = some ["j", "L"] ∧
    parseLabel "L:" = some "L" := by
  refine ⟨by decide, by decide, by decide, by decide⟩

/-- C9 (counterexample): a label declaration followed by non-empty trailing
text does not fail; the prefix match still classifies it as a label. -/
theorem parse_label_trailing_text :
    parse "xy: or" = some ["xy"] := by decide

/-- C2: for the shared I-type encoder (used by both I-type-arithmetic and
I-type-memory, the latter with operand order permuted), an immediate v with
-8 <= v <= 7 encodes successfully with field-C the low 4 bits of v mod 2^32
(standard two's-complement truncation), and any v outside that range fails
with an immediate overflow error. -/
theorem itype_immediate_encoding (op desReg srcReg : String) (v : Int) :
    (-8 ≤ v → v ≤ 7 →
      getITypeFormat op desReg srcReg v =
        .ok [OPCODES op, REGISTERS srcReg, REGISTERS desReg,
             String.mk (natToBits 4 ((v % 4294967296).toNat))]) ∧
    (v < -8 ∨ 8 ≤ v →
      getITypeFormat op desReg srcReg v =
        .error ("Immediate value overflow " ++ toString v)) := by
  constructor
  · intro h1 h2
    unfold getITypeFormat
    rw [if_neg (by omega)]
    have h : (if v < 0 then v + 4294967296 else v).toNat = (v % 4294967296).toNat := by
      split <;> omega
    show Except.ok [OPCODES op, REGISTERS srcReg, REGISTERS desReg,
      String.mk (natToBits 4 (if v < 0 then v + 4294967296 else v).toNat)] = _
    rw [h]
  · intro h
    unfold getITypeFormat
    rw [if_pos (by omega)]

/-- Witness for C2 at v = -8, 7 (success) and v = -9, 8 (overflow). -/
theorem itype_immediate_encoding_witness :
    getITypeFormat "addi" "$t0" "$t1" (-8) = .ok ["1001", "0010", "0001", "1000"] ∧
    getITypeFormat "addi" "$t0" "$t1" 7 = .ok ["1001", "0010", "0001", "0111"] ∧
    getITypeFormat "addi" "$t0" "$t1" (-9) = .error ("Immediate value overflow " ++ toString (-9 : Int)) ∧
    getITypeFormat "addi" "$t0" "$t1" 8 = .error ("Immediate value overflow " ++ toString (8 : Int)) := by
  refine ⟨?_, ?_, ?_, ?_⟩
  · rw [(itype_immediate_encoding "addi" "$t0" "$t1" (-8)).1 (by norm_num) (by norm_num)]; rfl
  · rw [(itype_immediate_encoding "addi" "$t0" "$t1" 7).1 (by norm_num) (by norm_num)]; rfl
  · exact (itype_immediate_encoding "addi" "$t0" "$t1" (-9)).2 (by norm_num)
  · exact (itype_immediate_encoding "addi" "$t0" "$t1" 8).2 (by norm_num)

/-- C5: a j instruction whose label resolves to address A encodes
successfully iff 0 <= A < 256, and the word is the opcode's 4 bits, the
8-bit binary of A, then 4 zero bits; 256 <= A is a jump address overflow
error.  Label-table addresses are naturals, so A is a Nat. -/
theorem jtype_address_encoding (op : String) (a : Nat) :
    ((∃ f, getJTypeFormat op a = .ok f) ↔ 0 ≤ a ∧ a < 256) ∧
    (a < 256 → getJTypeFormat op a = .ok [OPCODES op, String.mk (natToBits 8 a), "0000"]) ∧
    (256 ≤ a → getJTypeFormat op a = .error ("Jump address overflow " ++ toString a)) := by
  unfold getJTypeFormat
  by_cases h : 256 ≤ a
  · rw [if_pos h]
    refine ⟨⟨fun hf => ?_, fun hb => by omega⟩, fun h2 => by omega, fun _ => rfl⟩
    obtain ⟨f, hf⟩ := hf
    simp at hf
  · rw [if_neg h]
    exact ⟨⟨fun _ => ⟨Nat.zero_le a, by omega⟩, fun _ => ⟨_, rfl⟩⟩, fun _ => rfl,
      fun h2 => absurd h2 h⟩

/-- Witness for C5 at A = 0, 255 (success) and A = 256 (overflow). -/
theorem jtype_address_encoding_witness :
    getJTypeFormat "j" 0 = .ok ["0110", "00000000", "0000"] ∧
    getJTypeFormat "j" 255 = .ok ["0110", "11111111", "0000"] ∧
    getJTypeFormat "j" 256 = .error ("Jump address overflow " ++ toString (256 : Nat)) := by
  refine ⟨?_, ?_, ?_⟩
  · rw [(jtype_address_encoding "j" 0).2.1 (by norm_num)]; rfl
  · rw [(jtype_address_encoding "j" 255).2.1 (by norm_num)]; rfl
  · exact (jtype_address_encoding "j" 256).2.2 (by norm_num)

lemma pass1Go_cons (st : List (String × Nat) × Nat) (l : String) (ls : List String) :
    pass1Go st (l :: ls) =
      match parseLabel (pyStripStr l) with
      | some name => pass1Go ((name, st.2) :: st.1, st.2) ls
      | none => pass1Go (st.1, st.2 + 1) ls := rfl

lemma pass1Go_append (xs ys : List String) :
    ∀ st, pass1Go st (xs ++ ys) = pass1Go (pass1Go st xs) ys := by
  induction xs with
  | nil => intro st; rfl
  | cons l ls ih =>
    intro st
    rw [List.cons_append, pass1Go_cons, pass1Go_cons]
    cases h : parseLabel (pyStripStr l) <;> simp only [ih]

lemma pass1Go_counter (lines : List String) :
    ∀ st, (pass1Go st lines).2 = st.2 + nonLabelCount lines := by
  induction lines with
  | nil => intro st; simp [pass1Go, nonLabelCount]
  | cons l ls ih =>
    intro st
    rw [pass1Go_cons]
    cases h : parseLabel (pyStripStr l) with
    | none =>
      simp only [ih, nonLabelCount, List.countP_cons, h, Option.isNone_none]
      simp
      omega
    | some name =>
      simp only [ih, nonLabelCount, List.countP_cons, h, Option.isNone_some]
      simp

lemma pass1Go_lookup_fresh (name : String) (ls : List String)
    (hfresh : ∀ x ∈ ls, parseLabel (pyStripStr x) ≠ some name) :
    ∀ st, lookupLabel (pass1Go st ls).1 name = lookupLabel st.1 name := by
  induction ls with
  | nil => intro st; rfl
  | cons l ls ih =>
    intro st
    rw [pass1Go_cons]
    cases h : parseLabel (pyStripStr l) with
    | none => exact ih (fun x hx => hfresh x (List.mem_cons_of_mem l hx)) _
    | some other =>
      have hne : other ≠ name := by
        intro he
        exact hfresh l (List.mem_cons_self l ls) (by rw [h, he])
      rw [ih (fun x hx => hfresh x (List.mem_cons_of_mem l hx))]
      show lookupLabel ((other, st.2) :: st.1) name = _
      simp [lookupLabel, hne]

/-- C3: pass 1 walks the lines once with a counter starting at 0; a label
line records label to the current counter without advancing it, any other
line advances it by one.  Hence the recorded address of the last declaration
of a name equals the number of non-label lines preceding it, the final
counter is the total non-label count, and a label line just before an
instruction does not change the count (so two adjacent labels resolve to the
same address).  Earlier declarations of the same name in pre are overwritten
silently. -/
theorem pass1_label_addresses (pre post : List String) (l name : String)
    (hl : parseLabel (pyStripStr l) = some name)
    (hfresh : ∀ x ∈ post, parseLabel (pyStripStr x) ≠ some name) :
    lookupLabel (pass1 (pre ++ l :: post)).1 name = some (nonLabelCount pre) ∧
    (pass1 (pre ++ l :: post)).2 = nonLabelCount (pre ++ l :: post) ∧
    nonLabelCount (pre ++ [l]) = nonLabelCount pre := by
  refine ⟨?_, ?_, ?_⟩
  · rw [pass1, pass1Go_append, pass1Go_cons, hl,
      pass1Go_lookup_fresh name post hfresh]
    show lookupLabel ((name, (pass1Go ([], 0) pre).2) :: _) name = _
    simp [lookupLabel, pass1Go_counter]
  · rw [pass1, pass1Go_counter]
    simp
  · simp [nonLabelCount, List.countP_append, List.countP_cons, hl]

/-- Witness for C3 on a three-line program with a label between two
instructions. -/
theorem pass1_label_addresses_witness :
    lookupLabel (pass1 (["add $t0, $zero, $zero"] ++ "xy:" :: ["sub $t0, $t1, $t2"])).1 "xy"
      = some 1 ∧
    (pass1 (["add $t0, $zero, $zero"] ++ "xy:" :: ["sub $t0, $t1, $t2"])).2 = 2 := by
  have h := pass1_label_addresses ["add $t0, $zero, $zero"] ["sub $t0, $t1, $t2"] "xy:" "xy"
    (by decide) (by decide)
  exact ⟨by rw [h.1]; decide, by rw [h.2.1]; decide⟩

lemma getITypeFormat_ok (op d s : String) (v : Int) (h1 : -8 ≤ v) (h2 : v ≤ 7) :
    getITypeFormat op d s v =
      .ok [OPCODES op, REGISTERS s, REGISTERS d,
           String.mk (natToBits 4 ((v % 4294967296).toNat))] := by
  unfold getITypeFormat
  rw [if_neg (by omega)]
  have h : (if v < 0 then v + 4294967296 else v).toNat = (v % 4294967296).toNat := by
    split <;> omega
  show Except.ok [OPCODES op, REGISTERS s, REGISTERS d,
    String.mk (natToBits 4 (if v < 0 then v + 4294967296 else v).toNat)] = _
  rw [h]

lemma getITypeFormat_overflow (op d s : String) (v : Int) (h : v < -8 ∨ 8 ≤ v) :
    getITypeFormat op d s v = .error ("Immediate value overflow " ++ toString v) := by
  unfold getITypeFormat
  rw [if_pos (by omega)]

lemma bitsVal_natToBits (w n : Nat) : bitsVal (natToBits w n) = n % 2 ^ w := by
  induction w generalizing n with
  | zero => simp [natToBits, bitsVal, Nat.mod_one]
  | succ w ih =>
    show bitsVal (natToBits w (n / 2) ++ [if n % 2 = 1 then '1' else '0']) = n % 2 ^ (w + 1)
    unfold bitsVal
    rw [List.foldl_append]
    show 2 * bitsVal (natToBits w (n / 2)) +
      (if (if n % 2 = 1 then '1' else '0') = '1' then 1 else 0) = n % 2 ^ (w + 1)
    rw [ih]
    have h2 : 2 ^ (w + 1) = 2 * 2 ^ w := by ring
    rw [h2, Nat.mod_mul]
    by_cases hb : n % 2 = 1 <;> simp [hb] <;> omega

lemma encodeLine_branch (labels : List (String × Nat)) (n : Nat) (line : String)
    (op rs rt lbl : String)
    (hline : pyStripStr line = line)
    (hparse : parse line = some [op, rs, rt, lbl])
    (hop : op = "beq" ∨ op = "bneq") :
    encodeLine labels n line =
      match lookupLabel labels lbl with
      | none => Outcome.err "Unrecognized label"
      | some addr =>
        match getITypeFormat op rs rt ((addr : Int) - ((n : Int) + 1)) with
        | .ok f => Outcome.word f
        | .error e => Outcome.err e := by
  rcases hop with rfl | rfl <;>
  · simp only [encodeLine]
    rw [hline, hline, hparse]
    rfl

/-- C1: a beq/bneq at pass-2 address n whose label is bound to L encodes the
signed offset L - (n + 1) through the 4-bit signed immediate path, and
whenever that offset lies in [-8, 7] decoding the 4-bit field as
two's complement and adding n + 1 recovers L; if the label is absent from
the Label Table the line fails with an unrecognized label error. -/
theorem branch_offset_law (labels : List (String × Nat)) (n : Nat) (line : String)
    (op rs rt lbl : String)
    (hline : pyStripStr line = line)
    (hparse : parse line = some [op, rs, rt, lbl])
    (hop : op = "beq" ∨ op = "bneq") :
    (∀ L : Nat, lookupLabel labels lbl = some L →
      -8 ≤ (L : Int) - ((n : Int) + 1) → (L : Int) - ((n : Int) + 1) ≤ 7 →
        encodeLine labels n line =
          .word [OPCODES op, REGISTERS rt, REGISTERS rs,
                 String.mk (natToBits 4 ((((L : Int) - ((n : Int) + 1)) % 4294967296).toNat))] ∧
        decode4 (natToBits 4 ((((L : Int) - ((n : Int) + 1)) % 4294967296).toNat)) + ((n : Int) + 1)
          = (L : Int)) ∧
    (lookupLabel labels lbl = none →
      encodeLine labels n line = .err "Unrecognized label") := by
  have hd := encodeLine_branch labels n line op rs rt lbl hline hparse hop
  constructor
  · intro L hL h1 h2
    rw [hL] at hd
    have hd2 : encodeLine labels n line =
        match getITypeFormat op rs rt ((L : Int) - ((n : Int) + 1)) with
        | .ok f => Outcome.word f
        | .error e => Outcome.err e := hd
    rw [getITypeFormat_ok op rs rt _ h1 h2] at hd2
    refine ⟨hd2, ?_⟩
    unfold decode4
    rw [bitsVal_natToBits]
    have hm : ((((L : Int) - ((n : Int) + 1)) % 4294967296).toNat : Int)
        = ((L : Int) - ((n : Int) + 1)) % 4294967296 := by
      have := Int.emod_nonneg ((L : Int) - ((n : Int) + 1)) (b := 4294967296) (by norm_num)
      omega
    dsimp only
    split <;> push_cast <;> omega
  · intro hL
    rw [hL] at hd
    exact hd

/-- Witness for C1: beq at address 0 targeting a label at address 3, and the
unrecognized-label failure with an empty table. -/
theorem branch_offset_law_witness :
    encodeLine [("xy", 3)] 0 "beq $t0, $t1, xy" =
      .word ["1011", "0010", "0001",
             String.mk (natToBits 4 ((((3 : Int) - ((0 : Int) + 1)) % 4294967296).toNat))] ∧
    decode4 (natToBits 4 ((((3 : Int) - ((0 : Int) + 1)) % 4294967296).toNat)) + ((0 : Int) + 1)
      = (3 : Int) ∧
    encodeLine [] 0 "beq $t0, $t1, xy" = .err "Unrecognized label" := by
  have h := branch_offset_law [("xy", 3)] 0 "beq $t0, $t1, xy" "beq" "$t0" "$t1" "xy"
    (by decide) (by decide) (Or.inl rfl)
  have h2 := branch_offset_law [] 0 "beq $t0, $t1, xy" "beq" "$t0" "$t1" "xy"
    (by decide) (by decide) (Or.inl rfl)
  obtain ⟨ha, hb⟩ := h.1 3 (by decide) (by norm_num) (by norm_num)
  exact ⟨ha, hb, h2.2 (by decide)⟩

lemma head_not_of_dropWhile_eq {p : Char → Bool} {a : Char} {rest : List Char}
    (h : (a :: rest).dropWhile p = a :: rest) : p a = false := by
  by_contra hc
  rw [List.dropWhile_cons, if_pos (by simpa using hc)] at h
  have h1 := (List.dropWhile_sublist (l := rest) p).length_le
  have h2 := congrArg List.length h
  simp at h2
  omega

lemma pyStrip_idem (l : List Char) : pyStrip (pyStrip l) = pyStrip l := by
  have hB : (l.dropWhile isPySpace).dropWhile isPySpace = l.dropWhile isPySpace :=
    List.dropWhile_idempotent isPySpace l
  show List.rdropWhile isPySpace
      ((List.rdropWhile isPySpace (l.dropWhile isPySpace)).dropWhile isPySpace)
      = List.rdropWhile isPySpace (l.dropWhile isPySpace)
  have hA : (List.rdropWhile isPySpace (l.dropWhile isPySpace)).dropWhile isPySpace
      = List.rdropWhile isPySpace (l.dropWhile isPySpace) := by
    obtain ⟨t, ht⟩ := List.rdropWhile_prefix (p := isPySpace) (l := l.dropWhile isPySpace)
    cases hAe : List.rdropWhile isPySpace (l.dropWhile isPySpace) with
    | nil => rfl
    | cons a A2 =>
      rw [List.dropWhile_cons, if_neg ?hneg]
      case hneg =>
        rw [hAe] at ht
        have hhead : l.dropWhile isPySpace = a :: (A2 ++ t) := by rw [← ht]; rfl
        rw [hhead] at hB
        simp [head_not_of_dropWhile_eq hB]
  rw [hA]
  exact List.rdropWhile_idempotent isPySpace _

lemma pyStripStr_idem (s : String) : pyStripStr (pyStripStr s) = pyStripStr s :=
  congrArg String.mk (pyStrip_idem s.data)

lemma pyStrip_cons_space (l : List Char) : pyStrip (' ' :: l) = pyStrip l := by
  unfold pyStrip
  rw [show (' ' :: l).dropWhile isPySpace = l.dropWhile isPySpace from by
    rw [List.dropWhile_cons]; simp [isPySpace]]

lemma pyFind_eq_none {l : List Char} {c : Char} (h : ∀ x ∈ l, x ≠ c) : pyFind l c = none := by
  induction l with
  | nil => rfl
  | cons a t ih =>
    show (if a = c then some 0 else (pyFind t c).map (· + 1)) = none
    rw [if_neg (h a (List.mem_cons_self a t)), ih (fun x hx => h x (List.mem_cons_of_mem a hx))]
    rfl

lemma pyFind_append_first {l rest : List Char} {c : Char} (h : ∀ x ∈ l, x ≠ c) :
    pyFind (l ++ c :: rest) c = some l.length := by
  induction l with
  | nil => simp [pyFind]
  | cons a t ih =>
    show (if a = c then some 0 else (pyFind (t ++ c :: rest) c).map (· + 1)) = some (a :: t).length
    rw [if_neg (h a (List.mem_cons_self a t)), ih (fun x hx => h x (List.mem_cons_of_mem a hx))]
    simp

lemma pyStrip_parts {x : List Char} (hx : pyStrip x = x) :
    x.dropWhile isPySpace = x ∧ List.rdropWhile isPySpace x = x := by
  have hx' : List.rdropWhile isPySpace (x.dropWhile isPySpace) = x := hx
  have hs1 : List.Sublist (x.dropWhile isPySpace) x := List.dropWhile_sublist _
  have hs2 : List.Sublist (List.rdropWhile isPySpace (x.dropWhile isPySpace))
      (x.dropWhile isPySpace) := ( List.rdropWhile_prefix isPySpace (x.dropWhile isPySpace)).sublist
  have hdw : x.dropWhile isPySpace = x := by
    apply hs1.eq_of_length
    have l1 := hs1.length_le
    have l2 := hs2.length_le
    have l3 := congrArg List.length hx'
    omega
  refine ⟨hdw, ?_⟩
  rw [hdw] at hx'
  exact hx'

lemma rdropWhile_append_right {X y : List Char} (hy : List.rdropWhile isPySpace y = y)
    (hne : y ≠ []) : List.rdropWhile isPySpace (X ++ y) = X ++ y := by
  rw [List.rdropWhile_eq_self_iff] at hy ⊢
  intro hl
  rw [List.getLast_append' X y hne]
  exact hy hne

lemma list_len4 {l : List Char} (h : l.length = 4) : ∃ a b c d, l = [a, b, c, d] := by
  rcases l with _ | ⟨a, _ | ⟨b, _ | ⟨c, _ | ⟨d, _ | ⟨e, t⟩⟩⟩⟩⟩
  · simp at h
  · simp at h
  · simp at h
  · simp at h
  · exact ⟨a, b, c, d, rfl⟩
  · simp at h

lemma list_len3 {l : List Char} (h : l.length = 3) : ∃ a b c, l = [a, b, c] := by
  rcases l with _ | ⟨a, _ | ⟨b, _ | ⟨c, _ | ⟨d, t⟩⟩⟩⟩
  · simp at h
  · simp at h
  · simp at h
  · exact ⟨a, b, c, rfl⟩
  · simp at h

lemma lower_no_colon {l w : List Char} (hm : l.map Char.toLower = w)
    (hw : ':' ∉ w) : ∀ x ∈ l, x ≠ ':' := by
  intro x hx he
  have h2 : Char.toLower x ∈ w := hm ▸ List.mem_map_of_mem Char.toLower hx
  rw [he] at h2
  exact hw (by simpa using h2)

lemma preassembleLine_push (m r : String)
    (hm : m.data.map Char.toLower = ['p', 'u', 's', 'h'])
    (hr : pyStrip r.data = r.data) (hrc : ∀ x ∈ r.data, x ≠ ':') :
    preassembleLine (m ++ " " ++ r) = ["subi $sp, $sp, 1", "sw " ++ r ++ ", 0($sp)"] := by
  have hlen : m.data.length = 4 := by
    have h := congrArg List.length hm
    simpa using h
  have hdata : (m ++ " " ++ r).data = m.data ++ ' ' :: r.data := by
    show (m.data ++ [' ']) ++ r.data = m.data ++ ' ' :: r.data
    simp
  have hmc : ∀ x ∈ m.data, x ≠ ':' := lower_no_colon hm (by decide)
  have hfind : pyFind ((m ++ " " ++ r) : String).data ':' = none := by
    rw [hdata]
    apply pyFind_eq_none
    intro x hx
    rcases List.mem_append.1 hx with h | h
    · exact hmc x h
    · rcases List.mem_cons.1 h with rfl | h2
      · decide
      · exact hrc x h2
  simp only [preassembleLine, hdata]
  rw [hdata] at hfind
  rw [hfind]
  dsimp only
  rw [List.take_left' hlen, if_pos hm, List.drop_left' hlen, pyStrip_cons_space, hr]
  have e2 : String.mk (('s' :: 'w' :: ' ' :: []) ++ r.data ++
      (',' :: ' ' :: '0' :: '(' :: '$' :: 's' :: 'p' :: ')' :: [])) = "sw " ++ r ++ ", 0($sp)" := by
    have e3 : ("sw " ++ r ++ ", 0($sp)" : String) = String.mk ((('s' :: 'w' :: ' ' :: []) ++
        r.data) ++ (',' :: ' ' :: '0' :: '(' :: '$' :: 's' :: 'p' :: ')' :: [])) := rfl
    rw [e3, List.append_assoc]
  simp only [Option.toList, List.nil_append, List.map_cons, List.map_nil, e2]

lemma lower_head_not_space {c : Char} (h : Char.toLower c = 'p') : isPySpace c = false := by
  by_contra hc
  have hc' : isPySpace c = true := by simpa using hc
  have hmem : ((((c = ' ' ∨ c = '\t') ∨ c = '\n') ∨ c = '\x0b') ∨ c = '\x0c') ∨ c = '\r' := by
    simpa [isPySpace] using hc'
  rcases hmem with ((((rfl | rfl) | rfl) | rfl) | rfl) | rfl <;> exact absurd h (by decide)

lemma preassembleLine_pop (p r : String)
    (hp : p.data.map Char.toLower = ['p', 'o', 'p'])
    (hr : pyStrip r.data = r.data) (hrc : ∀ x ∈ r.data, x ≠ ':') :
    preassembleLine (p ++ " " ++ r) = ["lw " ++ r ++ ", 0($sp)", "addi $sp, $sp, 1"] := by
  have hlen : p.data.length = 3 := by
    have h := congrArg List.length hp
    simpa using h
  have hdata : (p ++ " " ++ r).data = p.data ++ ' ' :: r.data := by
    show (p.data ++ [' ']) ++ r.data = p.data ++ ' ' :: r.data
    simp
  have hpc : ∀ x ∈ p.data, x ≠ ':' := lower_no_colon hp (by decide)
  have hfind : pyFind ((p ++ " " ++ r) : String).data ':' = none := by
    rw [hdata]
    apply pyFind_eq_none
    intro x hx
    rcases List.mem_append.1 hx with h | h
    · exact hpc x h
    · rcases List.mem_cons.1 h with rfl | h2
      · decide
      · exact hrc x h2
  have htake4 : (p.data ++ ' ' :: r.data).take 4 = p.data ++ [' '] := by
    have h4 : (4 : Nat) = p.data.length + 1 := by omega
    rw [h4, List.take_append]
    rfl
  have hnotpush : ((p.data ++ ' ' :: r.data).take 4).map Char.toLower ≠ ['p', 'u', 's', 'h'] := by
    rw [htake4, List.map_append, hp]
    intro he
    simp at he
  simp only [preassembleLine, hdata]
  rw [hdata] at hfind
  rw [hfind]
  dsimp only
  rw [if_neg hnotpush, List.take_left' hlen, if_pos hp, List.drop_left' hlen,
    pyStrip_cons_space, hr]
  have e2 : String.mk (('l' :: 'w' :: ' ' :: []) ++ r.data ++
      (',' :: ' ' :: '0' :: '(' :: '$' :: 's' :: 'p' :: ')' :: [])) = "lw " ++ r ++ ", 0($sp)" := by
    have e3 : ("lw " ++ r ++ ", 0($sp)" : String) = String.mk ((('l' :: 'w' :: ' ' :: []) ++
        r.data) ++ (',' :: ' ' :: '0' :: '(' :: '$' :: 's' :: 'p' :: ')' :: [])) := rfl
    rw [e3, List.append_assoc]
  simp only [Option.toList, List.nil_append, List.map_cons, List.map_nil, e2]

lemma preassembleLine_label_push (lbl m r : String)
    (hm : m.data.map Char.toLower = ['p', 'u', 's', 'h'])
    (hr : pyStrip r.data = r.data) (hrne : r ≠ "")
    (hlblc : ∀ x ∈ lbl.data, x ≠ ':') :
    preassembleLine (lbl ++ ": " ++ m ++ " " ++ r) =
      [lbl ++ ":", "subi $sp, $sp, 1", "sw " ++ r ++ ", 0($sp)"] := by
  have hlen : m.data.length = 4 := by
    have h := congrArg List.length hm
    simpa using h
  have hrne2 : r.data ≠ [] := by
    intro h
    apply hrne
    have h2 : r = String.mk r.data := rfl
    rw [h2, h]
  have hdata : (lbl ++ ": " ++ m ++ " " ++ r).data
      = lbl.data ++ ':' :: (' ' :: (m.data ++ ' ' :: r.data)) := by
    show (((lbl.data ++ [':', ' ']) ++ m.data) ++ [' ']) ++ r.data = _
    simp
  have hfind : pyFind ((lbl ++ ": " ++ m ++ " " ++ r) : String).data ':'
      = some lbl.data.length := by
    rw [hdata]
    exact pyFind_append_first hlblc
  have hlt : lbl.data.length + 1 < (lbl.data ++ ':' :: (' ' :: (m.data ++ ' ' :: r.data))).length := by
    simp [List.length_append]
  have htake : (lbl.data ++ ':' :: (' ' :: (m.data ++ ' ' :: r.data))).take (lbl.data.length + 1)
      = lbl.data ++ [':'] := by
    rw [List.take_append]
    rfl
  have hdrop : (lbl.data ++ ':' :: (' ' :: (m.data ++ ' ' :: r.data))).drop (lbl.data.length + 1)
      = ' ' :: (m.data ++ ' ' :: r.data) := by
    rw [List.drop_append]
    rfl
  obtain ⟨c1, c2, c3, c4, hmd⟩ := list_len4 hlen
  have hlow : Char.toLower c1 = 'p' ∧ Char.toLower c2 = 'u' ∧ Char.toLower c3 = 's'
      ∧ Char.toLower c4 = 'h' := by
    rw [hmd] at hm
    simpa using hm
  have hstrip : pyStrip (m.data ++ ' ' :: r.data) = m.data ++ ' ' :: r.data := by
    have hd1 : (m.data ++ ' ' :: r.data).dropWhile isPySpace = m.data ++ ' ' :: r.data := by
      rw [hmd]
      show List.dropWhile isPySpace (c1 :: ([c2, c3, c4] ++ ' ' :: r.data)) = _
      rw [List.dropWhile_cons, if_neg (by simp [lower_head_not_space hlow.1])]
      rfl
    show List.rdropWhile isPySpace ((m.data ++ ' ' :: r.data).dropWhile isPySpace) = _
    rw [hd1]
    rw [show m.data ++ ' ' :: r.data = (m.data ++ [' ']) ++ r.data from by simp]
    exact rdropWhile_append_right (pyStrip_parts hr).2 hrne2
  simp only [preassembleLine, hdata]
  rw [hdata] at hfind
  rw [hfind]
  dsimp only
  rw [if_pos hlt, htake, hdrop, pyStrip_cons_space, hstrip, List.take_left' hlen, if_pos hm,
    List.drop_left' hlen, pyStrip_cons_space, hr]
  have e1 : String.mk (lbl.data ++ [':']) = lbl ++ ":" := rfl
  have e2 : String.mk (('s' :: 'w' :: ' ' :: []) ++ r.data ++
      (',' :: ' ' :: '0' :: '(' :: '$' :: 's' :: 'p' :: ')' :: [])) = "sw " ++ r ++ ", 0($sp)" := by
    have e3 : ("sw " ++ r ++ ", 0($sp)" : String) = String.mk ((('s' :: 'w' :: ' ' :: []) ++
        r.data) ++ (',' :: ' ' :: '0' :: '(' :: '$' :: 's' :: 'p' :: ')' :: [])) := rfl
    rw [e3, List.append_assoc]
  simp only [Option.toList, List.map_cons, List.map_nil, List.singleton_append, e1, e2]

/-- C6: push reg expands to subi $sp, $sp, 1 then sw reg, 0($sp); pop reg
expands to lw reg, 0($sp) then addi $sp, $sp, 1; the mnemonic is matched
case-insensitively; label splitting happens strictly before expansion, so
label: push reg emits the label line first (binding the label to the first
expanded instruction), and the preprocessor output preserves relative
order. -/
theorem push_pop_expansion (m p r lbl : String)
    (hm : m.data.map Char.toLower = ['p', 'u', 's', 'h'])
    (hp : p.data.map Char.toLower = ['p', 'o', 'p'])
    (hr : pyStrip r.data = r.data) (hrne : r ≠ "") (hrc : ∀ x ∈ r.data, x ≠ ':')
    (hlblc : ∀ x ∈ lbl.data, x ≠ ':') :
    preassembleLine (m ++ " " ++ r) = ["subi $sp, $sp, 1", "sw " ++ r ++ ", 0($sp)"] ∧
    preassembleLine (p ++ " " ++ r) = ["lw " ++ r ++ ", 0($sp)", "addi $sp, $sp, 1"] ∧
    preassembleLine (lbl ++ ": " ++ m ++ " " ++ r) =
      [lbl ++ ":", "subi $sp, $sp, 1", "sw " ++ r ++ ", 0($sp)"] ∧
    (∀ xs ys : List String, (∀ x ∈ xs, pyStripStr x ≠ "") →
      preassemble (xs ++ ys) = preassemble xs ++ preassemble ys) := by
  refine ⟨preassembleLine_push m r hm hr hrc, preassembleLine_pop p r hp hr hrc,
    preassembleLine_label_push lbl m r hm hr hrne hlblc, ?_⟩
  intro xs ys hxs
  unfold preassemble
  have hall : (List.map pyStripStr xs).takeWhile (fun l => decide (l ≠ ""))
      = List.map pyStripStr xs := by
    have h2 := @List.takeWhile_append_of_pos String (fun l => decide (l ≠ ""))
      (List.map pyStripStr xs) [] (by simpa using hxs)
    simpa using h2
  rw [List.map_append, List.takeWhile_append_of_pos (by simpa using hxs),
    List.map_append, List.flatten_append, hall]

/-- Witness for C6 with concrete registers, an uppercase POP mnemonic and a
labelled push. -/
theorem push_pop_expansion_witness :
    preassembleLine ("push" ++ " " ++ "$t0") = ["subi $sp, $sp, 1", "sw " ++ "$t0" ++ ", 0($sp)"] ∧
    preassembleLine ("POP" ++ " " ++ "$t1") = ["lw " ++ "$t1" ++ ", 0($sp)", "addi $sp, $sp, 1"] ∧
    preassembleLine ("loop" ++ ": " ++ "push" ++ " " ++ "$t0") =
      ["loop" ++ ":", "subi $sp, $sp, 1", "sw " ++ "$t0" ++ ", 0($sp)"] ∧
    preassemble (["push $t0"] ++ ["j loop"]) = preassemble ["push $t0"] ++ preassemble ["j loop"] := by
  have h := push_pop_expansion "push" "POP" "$t0" "loop" (by decide) (by decide) (by decide)
    (by decide) (by decide) (by decide)
  have h2 := push_pop_expansion "push" "POP" "$t1" "loop" (by decide) (by decide) (by decide)
    (by decide) (by decide) (by decide)
  exact ⟨h.1, h2.2.1, h.2.2.1, h.2.2.2 ["push $t0"] ["j loop"] (by decide)⟩

lemma firstAlt_inv : ∀ {ws : List (List Char)} {l w r : List Char},
    firstAlt ws l = some (w, r) → w ∈ ws ∧ l = w ++ r := by
  intro ws
  induction ws with
  | nil => intro l w r h; simp [firstAlt] at h
  | cons w0 rest ih =>
    intro l w r h
    unfold firstAlt at h
    by_cases hp : w0.isPrefixOf l
    · rw [if_pos hp] at h
      have h2 := Option.some.inj h
      have hw : w = w0 := (congrArg Prod.fst h2).symm
      have hr2 : r = l.drop w0.length := (congrArg Prod.snd h2).symm
      subst hw
      subst hr2
      refine ⟨List.mem_cons_self _ _, ?_⟩
      have hpre : w <+: l := by rwa [ List.isPrefixOf_iff_prefix] at hp
      obtain ⟨t, ht⟩ := hpre
      rw [← ht, List.drop_left]
    · rw [if_neg hp] at h
      obtain ⟨h1, h2⟩ := ih h
      exact ⟨List.mem_cons_of_mem _ h1, h2⟩

lemma spaces1_inv {l r : List Char} (h : spaces1 l = some r) : ∃ t, l = ' ' :: t := by
  cases l with
  | nil => simp [spaces1] at h
  | cons c t =>
    simp only [spaces1] at h
    by_cases hc : c = ' '
    · subst hc; exact ⟨t, rfl⟩
    · rw [if_neg hc] at h; cases h

lemma matchRType_inv {l : List Char} {g : List String} (h : matchRType l = some g) :
    ∃ w t, w ∈ rOpsC ∧ l = w ++ ' ' :: t ∧
      ∃ a b c : List Char, g = [String.mk w, String.mk a, String.mk b, String.mk c] := by
  unfold matchRType at h
  cases h1 : firstAlt rOpsC l with
  | none => simp only [h1] at h; exact Option.noConfusion h
  | some pr1 =>
    obtain ⟨op, r1⟩ := pr1
    simp only [h1] at h
    cases h2 : spaces1 r1 with
    | none => simp only [h2] at h; exact Option.noConfusion h
    | some r2 =>
      simp only [h2] at h
      cases h3 : matchReg r2 with
      | none => simp only [h3] at h; exact Option.noConfusion h
      | some pr3 =>
        obtain ⟨a, r3⟩ := pr3
        simp only [h3] at h
        cases h4 : litc ',' r3 with
        | none => simp only [h4] at h; exact Option.noConfusion h
        | some r4 =>
          simp only [h4] at h
          cases h5 : matchReg (spaces0 r4) with
          | none => simp only [h5] at h; exact Option.noConfusion h
          | some pr5 =>
            obtain ⟨b, r5⟩ := pr5
            simp only [h5] at h
            cases h6 : litc ',' r5 with
            | none => simp only [h6] at h; exact Option.noConfusion h
            | some r6 =>
              simp only [h6] at h
              cases h7 : matchReg (spaces0 r6) with
              | none => simp only [h7] at h; exact Option.noConfusion h
              | some pr7 =>
                obtain ⟨c, r7⟩ := pr7
                simp only [h7] at h
                obtain ⟨hw, hl⟩ := firstAlt_inv h1
                obtain ⟨t, ht⟩ := spaces1_inv h2
                subst ht
                exact ⟨op, t, hw, hl, a, b, c, (Option.some.inj h).symm⟩

lemma litc_inv {c : Char} {l r : List Char} (h : litc c l = some r) : l = c :: r := by
  cases l with
  | nil => simp [litc] at h
  | cons a t =>
    simp only [litc] at h
    by_cases ha : a = c
    · subst ha
      rw [if_pos rfl] at h
      rw [Option.some.inj h]
    · rw [if_neg ha] at h
      cases h

lemma matchIType_inv {l : List Char} {g : List String} (h : matchIType l = some g) :
    ∃ w t, w ∈ iOpsC ∧ l = w ++ ' ' :: t ∧
      ∃ a b c : List Char, g = [String.mk w, String.mk a, String.mk b, String.mk c] := by
  unfold matchIType at h
  cases h1 : firstAlt iOpsC l with
  | none => simp only [h1] at h; exact Option.noConfusion h
  | some pr1 =>
    obtain ⟨op, r1⟩ := pr1
    simp only [h1] at h
    cases h2 : spaces1 r1 with
    | none => simp only [h2] at h; exact Option.noConfusion h
    | some r2 =>
      simp only [h2] at h
      cases h3 : matchReg r2 with
      | none => simp only [h3] at h; exact Option.noConfusion h
      | some pr3 =>
        obtain ⟨a, r3⟩ := pr3
        simp only [h3] at h
        cases h4 : litc ',' r3 with
        | none => simp only [h4] at h; exact Option.noConfusion h
        | some r4 =>
          simp only [h4] at h
          cases h5 : matchReg (spaces0 r4) with
          | none => simp only [h5] at h; exact Option.noConfusion h
          | some pr5 =>
            obtain ⟨b, r5⟩ := pr5
            simp only [h5] at h
            cases h6 : litc ',' r5 with
            | none => simp only [h6] at h; exact Option.noConfusion h
            | some r6 =>
              simp only [h6] at h
              cases h7 : matchSigned (spaces0 r6) with
              | none => simp only [h7] at h; exact Option.noConfusion h
              | some pr7 =>
                obtain ⟨imm, r7⟩ := pr7
                simp only [h7] at h
                obtain ⟨hw, hl⟩ := firstAlt_inv h1
                obtain ⟨t, ht⟩ := spaces1_inv h2
                subst ht
                exact ⟨op, t, hw, hl, a, b, imm, (Option.some.inj h).symm⟩

lemma matchMem_inv {l : List Char} {g : List String} (h : matchMem l = some g) :
    ∃ w t, w ∈ memOpsC ∧ l = w ++ ' ' :: t ∧
      ∃ a b c : List Char, g = [String.mk w, String.mk a, String.mk b, String.mk c] := by
  unfold matchMem at h
  cases h1 : firstAlt memOpsC l with
  | none => simp only [h1] at h; exact Option.noConfusion h
  | some pr1 =>
    obtain ⟨op, r1⟩ := pr1
    simp only [h1] at h
    cases h2 : spaces1 r1 with
    | none => simp only [h2] at h; exact Option.noConfusion h
    | some r2 =>
      simp only [h2] at h
      cases h3 : matchReg r2 with
      | none => simp only [h3] at h; exact Option.noConfusion h
      | some pr3 =>
        obtain ⟨a, r3⟩ := pr3
        simp only [h3] at h
        cases h4 : litc ',' r3 with
        | none => simp only [h4] at h; exact Option.noConfusion h
        | some r4 =>
          simp only [h4] at h
          cases h5 : matchDigits (spaces0 r4) with
          | none => simp only [h5] at h; exact Option.noConfusion h
          | some pr5 =>
            obtain ⟨off, r5⟩ := pr5
            simp only [h5] at h
            cases h6 : litc '(' r5 with
            | none => simp only [h6] at h; exact Option.noConfusion h
            | some r6 =>
              simp only [h6] at h
              cases h7 : matchReg r6 with
              | none => simp only [h7] at h; exact Option.noConfusion h
              | some pr7 =>
                obtain ⟨b, r7⟩ := pr7
                simp only [h7] at h
                cases h8 : litc ')' r7 with
                | none => simp only [h8] at h; exact Option.noConfusion h
                | some r8 =>
                  simp only [h8] at h
                  obtain ⟨hw, hl⟩ := firstAlt_inv h1
                  obtain ⟨t, ht⟩ := spaces1_inv h2
                  subst ht
                  exact ⟨op, t, hw, hl, a, off, b, (Option.some.inj h).symm⟩

lemma matchBranch_inv {l : List Char} {g : List String} (h : matchBranch l = some g) :
    ∃ w t, w ∈ brOpsC ∧ l = w ++ ' ' :: t ∧
      ∃ a b c : List Char, g = [String.mk w, String.mk a, String.mk b, String.mk c] := by
  unfold matchBranch at h
  cases h1 : firstAlt brOpsC l with
  | none => simp only [h1] at h; exact Option.noConfusion h
  | some pr1 =>
    obtain ⟨op, r1⟩ := pr1
    simp only [h1] at h
    cases h2 : spaces1 r1 with
    | none => simp only [h2] at h; exact Option.noConfusion h
    | some r2 =>
      simp only [h2] at h
      cases h3 : matchReg r2 with
      | none => simp only [h3] at h; exact Option.noConfusion h
      | some pr3 =>
        obtain ⟨a, r3⟩ := pr3
        simp only [h3] at h
        cases h4 : litc ',' r3 with
        | none => simp only [h4] at h; exact Option.noConfusion h
        | some r4 =>
          simp only [h4] at h
          cases h5 : matchReg (spaces0 r4) with
          | none => simp only [h5] at h; exact Option.noConfusion h
          | some pr5 =>
            obtain ⟨b, r5⟩ := pr5
            simp only [h5] at h
            cases h6 : litc ',' r5 with
            | none => simp only [h6] at h; exact Option.noConfusion h
            | some r6 =>
              simp only [h6] at h
              cases h7 : matchIdentPlus (spaces0 r6) with
              | none => simp only [h7] at h; exact Option.noConfusion h
              | some pr7 =>
                obtain ⟨lbl, r7⟩ := pr7
                simp only [h7] at h
                obtain ⟨hw, hl⟩ := firstAlt_inv h1
                obtain ⟨t, ht⟩ := spaces1_inv h2
                subst ht
                exact ⟨op, t, hw, hl, a, b, lbl, (Option.some.inj h).symm⟩

lemma matchJ_inv {l : List Char} {g : List String} (h : matchJ l = some g) :
    ∃ t lbl : List Char, l = ['j'] ++ ' ' :: t ∧ g = ["j", String.mk lbl] := by
  unfold matchJ at h
  cases h1 : litc 'j' l with
  | none => simp only [h1] at h; exact Option.noConfusion h
  | some r1 =>
    simp only [h1] at h
    cases h2 : spaces1 r1 with
    | none => simp only [h2] at h; exact Option.noConfusion h
    | some r2 =>
      simp only [h2] at h
      cases h3 : matchIdentStar r2 with
      | none => simp only [h3] at h; exact Option.noConfusion h
      | some pr3 =>
        obtain ⟨lbl, r3⟩ := pr3
        simp only [h3] at h
        obtain ⟨t, ht⟩ := spaces1_inv h2
        have hl := litc_inv h1
        subst ht
        exact ⟨t, lbl, by rw [hl]; rfl, (Option.some.inj h).symm⟩

lemma parseLabelCore_mnemonic {w : List Char} (t : List Char)
    (hw : w ∈ rOpsC ++ iOpsC ++ memOpsC ++ brOpsC ++ [['j']]) :
    parseLabelCore (w ++ ' ' :: t) = none := by
  fin_cases hw <;> rfl

lemma parse_some_label {s : String} {name : List Char}
    (h : parseLabelCore s.data = some name) : parse s = some [String.mk name] := by
  have h1 : matchRType s.data = none := by
    cases hx : matchRType s.data with
    | none => rfl
    | some g =>
      obtain ⟨w, t, hw, hl, -⟩ := matchRType_inv hx
      rw [hl, parseLabelCore_mnemonic t (List.mem_append_left _ (List.mem_append_left _ (List.mem_append_left _ (List.mem_append_left _ hw))))] at h
      exact Option.noConfusion h
  have h2 : matchIType s.data = none := by
    cases hx : matchIType s.data with
    | none => rfl
    | some g =>
      obtain ⟨w, t, hw, hl, -⟩ := matchIType_inv hx
      rw [hl, parseLabelCore_mnemonic t
        (List.mem_append_left _ (List.mem_append_left _ (List.mem_append_left _ (List.mem_append_right _ hw))))] at h
      exact Option.noConfusion h
  have h3 : matchMem s.data = none := by
    cases hx : matchMem s.data with
    | none => rfl
    | some g =>
      obtain ⟨w, t, hw, hl, -⟩ := matchMem_inv hx
      rw [hl, parseLabelCore_mnemonic t
        (List.mem_append_left _ (List.mem_append_left _ (List.mem_append_right _ hw)))] at h
      exact Option.noConfusion h
  have h4 : matchBranch s.data = none := by
    cases hx : matchBranch s.data with
    | none => rfl
    | some g =>
      obtain ⟨w, t, hw, hl, -⟩ := matchBranch_inv hx
      rw [hl, parseLabelCore_mnemonic t (List.mem_append_left _ (List.mem_append_right _ hw))] at h
      exact Option.noConfusion h
  have h5 : matchJ s.data = none := by
    cases hx : matchJ s.data with
    | none => rfl
    | some g =>
      obtain ⟨t, lbl, hl, -⟩ := matchJ_inv hx
      rw [hl, parseLabelCore_mnemonic t (List.mem_append_right _ (List.mem_cons_self _ _))] at h
      exact Option.noConfusion h
  unfold parse
  simp only [h1, h2, h3, h4, h5, h]

lemma dispatchLine_single (labels : List (String × Nat)) (n : Nat) (name : String) :
    dispatchLine labels n [name] = Outcome.label ∨ dispatchLine labels n [name] = Outcome.crash := by
  unfold dispatchLine
  simp only [List.get?]
  by_cases h1 : name ∈ ["or", "sub", "add", "nor", "and"]
  · rw [if_pos h1]; right; rfl
  rw [if_neg h1]
  by_cases h2 : name ∈ ["subi", "ori", "addi", "andi", "sll", "srl"]
  · rw [if_pos h2]; right; rfl
  rw [if_neg h2]
  by_cases h3 : name ∈ ["lw", "sw"]
  · rw [if_pos h3]; right; rfl
  rw [if_neg h3]
  by_cases h4 : name ∈ ["beq", "bneq"]
  · rw [if_pos h4]; right; rfl
  rw [if_neg h4]
  by_cases h5 : name = "j"
  · rw [if_pos h5]; right; rfl
  rw [if_neg h5]
  left; rfl

lemma dispatchLine_r (labels : List (String × Nat)) (n : Nat) (op a b c : String)
    (hop : op ∈ ["or", "sub", "add", "nor", "and"]) :
    dispatchLine labels n [op, a, b, c] = Outcome.word (getRTypeFormat op a b c) := by
  unfold dispatchLine
  simp only [List.get?]
  rw [if_pos hop]

lemma dispatchLine_i (labels : List (String × Nat)) (n : Nat) (op a b c : String)
    (hop : op ∈ ["subi", "ori", "addi", "andi", "sll", "srl"])
    (h1 : op ∉ ["or", "sub", "add", "nor", "and"]) :
    dispatchLine labels n [op, a, b, c] =
      match getITypeFormat op a b (pyInt c) with
      | .ok f => Outcome.word f
      | .error e => Outcome.err e := by
  unfold dispatchLine
  simp only [List.get?]
  rw [if_neg h1, if_pos hop]

lemma dispatchLine_m (labels : List (String × Nat)) (n : Nat) (op a b c : String)
    (hop : op ∈ ["lw", "sw"])
    (h1 : op ∉ ["or", "sub", "add", "nor", "and"])
    (h2 : op ∉ ["subi", "ori", "addi", "andi", "sll", "srl"]) :
    dispatchLine labels n [op, a, b, c] =
      match getITypeFormat op a c (pyInt b) with
      | .ok f => Outcome.word f
      | .error e => Outcome.err e := by
  unfold dispatchLine
  simp only [List.get?]
  rw [if_neg h1, if_neg h2, if_pos hop]

lemma dispatchLine_br (labels : List (String × Nat)) (n : Nat) (op a b c : String)
    (hop : op ∈ ["beq", "bneq"])
    (h1 : op ∉ ["or", "sub", "add", "nor", "and"])
    (h2 : op ∉ ["subi", "ori", "addi", "andi", "sll", "srl"])
    (h3 : op ∉ ["lw", "sw"]) :
    dispatchLine labels n [op, a, b, c] =
      match lookupLabel labels c with
      | none => Outcome.err "Unrecognized label"
      | some addr =>
        match getITypeFormat op a b ((addr : Int) - ((n : Int) + 1)) with
        | .ok f => Outcome.word f
        | .error e => Outcome.err e := by
  unfold dispatchLine
  simp only [List.get?]
  rw [if_neg h1, if_neg h2, if_neg h3, if_pos hop]

lemma dispatchLine_quad (labels : List (String × Nat)) (n : Nat) (w : List Char)
    (a b c : String)
    (hw : w ∈ rOpsC ++ iOpsC ++ memOpsC ++ brOpsC) :
    dispatchLine labels n [String.mk w, a, b, c] ≠ Outcome.label ∧
    dispatchLine labels n [String.mk w, a, b, c] ≠ Outcome.crash := by
  rcases List.mem_append.1 hw with hw1 | hbr
  · rcases List.mem_append.1 hw1 with hw2 | hm
    · rcases List.mem_append.1 hw2 with hr | hi
      · rw [dispatchLine_r labels n _ a b c (by fin_cases hr <;> decide)]
        exact ⟨by simp, by simp⟩
      · rw [dispatchLine_i labels n _ a b c (by fin_cases hi <;> decide)
          (by fin_cases hi <;> decide)]
        constructor <;> split <;> simp
    · rw [dispatchLine_m labels n _ a b c (by fin_cases hm <;> decide)
        (by fin_cases hm <;> decide) (by fin_cases hm <;> decide)]
      constructor <;> split <;> simp
  · rw [dispatchLine_br labels n _ a b c (by fin_cases hbr <;> decide)
      (by fin_cases hbr <;> decide) (by fin_cases hbr <;> decide) (by fin_cases hbr <;> decide)]
    constructor <;> (repeat' split) <;> simp

lemma dispatchLine_j (labels : List (String × Nat)) (n : Nat) (lbl : String) :
    dispatchLine labels n ["j", lbl] ≠ Outcome.label ∧
    dispatchLine labels n ["j", lbl] ≠ Outcome.crash := by
  unfold dispatchLine
  simp only [List.get?]
  refine ⟨?_, ?_⟩ <;> (repeat' split) <;> simp_all

lemma parse_some_inv {s : String} {g : List String} (h : parse s = some g) :
    (∃ w a b c, w ∈ rOpsC ++ iOpsC ++ memOpsC ++ brOpsC ∧
        g = [String.mk w, String.mk a, String.mk b, String.mk c]) ∨
    (∃ lbl, g = ["j", String.mk lbl]) ∨
    (∃ name, parseLabelCore s.data = some name ∧ g = [String.mk name]) := by
  unfold parse at h
  cases h1 : matchRType s.data with
  | some g1 =>
    simp only [h1] at h
    obtain ⟨w, t, hw, hl, a, b, c, hg⟩ := matchRType_inv h1
    refine Or.inl ⟨w, a, b, c, ?_, by rw [← Option.some.inj h, hg]⟩
    exact List.mem_append_left _ (List.mem_append_left _ (List.mem_append_left _ hw))
  | none =>
  simp only [h1] at h
  cases h2 : matchIType s.data with
  | some g2 =>
    simp only [h2] at h
    obtain ⟨w, t, hw, hl, a, b, c, hg⟩ := matchIType_inv h2
    refine Or.inl ⟨w, a, b, c, ?_, by rw [← Option.some.inj h, hg]⟩
    exact List.mem_append_left _ (List.mem_append_left _ (List.mem_append_right _ hw))
  | none =>
  simp only [h2] at h
  cases h3 : matchMem s.data with
  | some g3 =>
    simp only [h3] at h
    obtain ⟨w, t, hw, hl, a, b, c, hg⟩ := matchMem_inv h3
    refine Or.inl ⟨w, a, b, c, ?_, by rw [← Option.some.inj h, hg]⟩
    exact List.mem_append_left _ (List.mem_append_right _ hw)
  | none =>
  simp only [h3] at h
  cases h4 : matchBranch s.data with
  | some g4 =>
    simp only [h4] at h
    obtain ⟨w, t, hw, hl, a, b, c, hg⟩ := matchBranch_inv h4
    refine Or.inl ⟨w, a, b, c, ?_, by rw [← Option.some.inj h, hg]⟩
    exact List.mem_append_right _ hw
  | none =>
  simp only [h4] at h
  cases h5 : matchJ s.data with
  | some g5 =>
    simp only [h5] at h
    obtain ⟨t, lbl, hl, hg⟩ := matchJ_inv h5
    exact Or.inr (Or.inl ⟨lbl, by rw [← Option.some.inj h, hg]⟩)
  | none =>
  simp only [h5] at h
  cases h6 : parseLabelCore s.data with
  | some name =>
    simp only [h6] at h
    exact Or.inr (Or.inr ⟨name, rfl, (Option.some.inj h).symm⟩)
  | none =>
    simp only [h6] at h
    exact Option.noConfusion h

lemma encodeLine_label_or_crash (labels : List (String × Nat)) (n : Nat) (line : String) :
    (encodeLine labels n line = Outcome.label ∨ encodeLine labels n line = Outcome.crash)
      ↔ (parseLabel (pyStripStr line)).isSome = true := by
  have he : encodeLine labels n line =
      match parse (pyStripStr line) with
      | none => Outcome.err "Unknown instruction format"
      | some tk => dispatchLine labels n tk := by
    simp only [encodeLine, pyStripStr_idem]
  rw [he]
  constructor
  · intro h
    rcases hx : parse (pyStripStr line) with _ | g
    · rw [hx] at h; simp at h
    · rw [hx] at h
      simp only at h
      rcases parse_some_inv hx with ⟨w, a, b, c, hw, hg⟩ | ⟨lbl, hg⟩ | ⟨name, hname, hg⟩
      · rw [hg] at h
        rcases h with h | h
        · exact absurd h (dispatchLine_quad labels n w (String.mk a) (String.mk b)
            (String.mk c) hw).1
        · exact absurd h (dispatchLine_quad labels n w (String.mk a) (String.mk b)
            (String.mk c) hw).2
      · rw [hg] at h
        rcases h with h | h
        · exact absurd h (dispatchLine_j labels n (String.mk lbl)).1
        · exact absurd h (dispatchLine_j labels n (String.mk lbl)).2
      · simp [parseLabel, hname]
  · intro h
    obtain ⟨name, hname⟩ := Option.isSome_iff_exists.1 h
    have hcore : parseLabelCore (pyStripStr line).data = some name.data := by
      unfold parseLabel at hname
      cases hc : parseLabelCore (pyStripStr line).data with
      | none => rw [hc] at hname; cases hname
      | some d =>
        rw [hc] at hname
        have hd := Option.some.inj hname
        rw [← hd]
    rw [parse_some_label hcore]
    exact dispatchLine_single labels n (String.mk name.data)

lemma pass2Go_cons (labels : List (String × Nat)) (out : List Nat) (n : Nat) (err : Bool)
    (l : String) (ls : List String) :
    pass2Go labels (out, n, err) (l :: ls) =
      match encodeLine labels n l with
      | .word fmt => pass2Go labels (out ++ fmtToBytes fmt, n + 1, err) ls
      | .label => pass2Go labels (out, n, err) ls
      | .err _ => pass2Go labels (out, n, true) ls
      | .crash => none := rfl

lemma pass2Outcomes_cons (labels : List (String × Nat)) (n : Nat) (l : String)
    (ls : List String) :
    pass2Outcomes labels n (l :: ls) =
      match encodeLine labels n l with
      | .word f => Outcome.word f :: pass2Outcomes labels (n + 1) ls
      | o => o :: pass2Outcomes labels n ls := rfl

lemma pass2Go_spec (labels : List (String × Nat)) :
    ∀ (lines : List String) (out : List Nat) (n : Nat) (err : Bool),
      (Outcome.crash ∈ pass2Outcomes labels n lines →
        pass2Go labels (out, n, err) lines = none) ∧
      (Outcome.crash ∉ pass2Outcomes labels n lines →
        pass2Go labels (out, n, err) lines =
          some (out ++ outBytes (pass2Outcomes labels n lines),
                n + countWords (pass2Outcomes labels n lines),
                err || (pass2Outcomes labels n lines).any isErrO)) := by
  intro lines
  induction lines with
  | nil =>
    intro out n err
    refine ⟨fun hc => absurd hc (by simp [pass2Outcomes]), fun _ => ?_⟩
    simp [pass2Go, pass2Outcomes, outBytes, countWords]
  | cons l ls ih =>
    intro out n err
    cases ho : encodeLine labels n l with
    | word f =>
      have hoc : pass2Outcomes labels n (l :: ls)
          = Outcome.word f :: pass2Outcomes labels (n + 1) ls := by
        rw [pass2Outcomes_cons, ho]
      have hgo : pass2Go labels (out, n, err) (l :: ls)
          = pass2Go labels (out ++ fmtToBytes f, n + 1, err) ls := by
        rw [pass2Go_cons, ho]
      constructor
      · intro hc
        rw [hoc] at hc
        have hc2 : Outcome.crash ∈ pass2Outcomes labels (n + 1) ls := by
          rcases List.mem_cons.1 hc with h | h
          · cases h
          · exact h
        rw [hgo]
        exact (ih _ _ _).1 hc2
      · intro hc
        rw [hoc] at hc
        have hc2 : Outcome.crash ∉ pass2Outcomes labels (n + 1) ls :=
          fun h => hc (List.mem_cons_of_mem _ h)
        rw [hgo, (ih (out ++ fmtToBytes f) (n + 1) err).2 hc2, hoc]
        have e2 : countWords (Outcome.word f :: pass2Outcomes labels (n + 1) ls)
            = countWords (pass2Outcomes labels (n + 1) ls) + 1 := by
          simp [countWords, List.countP_cons, isWordO]
        have e3 : (Outcome.word f :: pass2Outcomes labels (n + 1) ls).any isErrO
            = (pass2Outcomes labels (n + 1) ls).any isErrO := by
          simp [isErrO]
        have e4 : n + 1 + countWords (pass2Outcomes labels (n + 1) ls)
            = n + (countWords (pass2Outcomes labels (n + 1) ls) + 1) := by omega
        rw [e2, e3, e4]
        show some ((out ++ fmtToBytes f) ++ outBytes (pass2Outcomes labels (n + 1) ls), _, _) = _
        rw [List.append_assoc]
        rfl
    | label =>
      have hoc : pass2Outcomes labels n (l :: ls)
          = Outcome.label :: pass2Outcomes labels n ls := by
        rw [pass2Outcomes_cons, ho]
      have hgo : pass2Go labels (out, n, err) (l :: ls)
          = pass2Go labels (out, n, err) ls := by
        rw [pass2Go_cons, ho]
      constructor
      · intro hc
        rw [hoc] at hc
        have hc2 : Outcome.crash ∈ pass2Outcomes labels n ls := by
          rcases List.mem_cons.1 hc with h | h
          · cases h
          · exact h
        rw [hgo]
        exact (ih _ _ _).1 hc2
      · intro hc
        rw [hoc] at hc
        have hc2 : Outcome.crash ∉ pass2Outcomes labels n ls :=
          fun h => hc (List.mem_cons_of_mem _ h)
        rw [hgo, (ih out n err).2 hc2, hoc]
        have e2 : countWords (Outcome.label :: pass2Outcomes labels n ls)
            = countWords (pass2Outcomes labels n ls) := by
          simp [countWords, List.countP_cons, isWordO]
        have e3 : (Outcome.label :: pass2Outcomes labels n ls).any isErrO
            = (pass2Outcomes labels n ls).any isErrO := by
          simp [isErrO]
        rw [e2, e3]
        rfl
    | err e =>
      have hoc : pass2Outcomes labels n (l :: ls)
          = Outcome.err e :: pass2Outcomes labels n ls := by
        rw [pass2Outcomes_cons, ho]
      have hgo : pass2Go labels (out, n, err) (l :: ls)
          = pass2Go labels (out, n, true) ls := by
        rw [pass2Go_cons, ho]
      constructor
      · intro hc
        rw [hoc] at hc
        have hc2 : Outcome.crash ∈ pass2Outcomes labels n ls := by
          rcases List.mem_cons.1 hc with h | h
          · cases h
          · exact h
        rw [hgo]
        exact (ih _ _ _).1 hc2
      · intro hc
        rw [hoc] at hc
        have hc2 : Outcome.crash ∉ pass2Outcomes labels n ls :=
          fun h => hc (List.mem_cons_of_mem _ h)
        rw [hgo, (ih out n true).2 hc2, hoc]
        have e2 : countWords (Outcome.err e :: pass2Outcomes labels n ls)
            = countWords (pass2Outcomes labels n ls) := by
          simp [countWords, List.countP_cons, isWordO]
        have e3 : (Outcome.err e :: pass2Outcomes labels n ls).any isErrO = true := by
          simp [isErrO]
        rw [e2, e3]
        simp only [Bool.true_or, Bool.or_true]
        rfl
    | crash =>
      have hoc : pass2Outcomes labels n (l :: ls)
          = Outcome.crash :: pass2Outcomes labels n ls := by
        rw [pass2Outcomes_cons, ho]
      have hgo : pass2Go labels (out, n, err) (l :: ls) = none := by
        rw [pass2Go_cons, ho]
      refine ⟨fun _ => hgo, fun hc => ?_⟩
      exact absurd (by rw [hoc]; exact List.mem_cons_self _ _) hc

lemma counts_nonLabel (labels : List (String × Nat)) :
    ∀ (lines : List String) (n : Nat),
      Outcome.crash ∉ pass2Outcomes labels n lines →
      countWords (pass2Outcomes labels n lines) + countErrs (pass2Outcomes labels n lines)
        = nonLabelCount lines := by
  intro lines
  induction lines with
  | nil =>
    intro n h
    simp [pass2Outcomes, countWords, countErrs, nonLabelCount]
  | cons l ls ih =>
    intro n hc
    cases ho : encodeLine labels n l with
    | word f =>
      have hiff := encodeLine_label_or_crash labels n l
      rw [ho] at hiff
      have hsome : ¬ (parseLabel (pyStripStr l)).isSome = true := by
        intro hs
        rcases hiff.2 hs with h | h <;> exact Outcome.noConfusion h
      have hnone : parseLabel (pyStripStr l) = none := Option.not_isSome_iff_eq_none.1 hsome
      have hoc : pass2Outcomes labels n (l :: ls)
          = Outcome.word f :: pass2Outcomes labels (n + 1) ls := by
        rw [pass2Outcomes_cons, ho]
      rw [hoc] at hc ⊢
      have hc2 : Outcome.crash ∉ pass2Outcomes labels (n + 1) ls :=
        fun h => hc (List.mem_cons_of_mem _ h)
      have := ih (n + 1) hc2
      simp [countWords, countErrs, List.countP_cons, isWordO, isErrO, nonLabelCount,
        hnone] at this ⊢
      omega
    | label =>
      have hiff := encodeLine_label_or_crash labels n l
      rw [ho] at hiff
      have hsome : (parseLabel (pyStripStr l)).isSome = true := hiff.1 (Or.inl rfl)
      have hoc : pass2Outcomes labels n (l :: ls)
          = Outcome.label :: pass2Outcomes labels n ls := by
        rw [pass2Outcomes_cons, ho]
      rw [hoc] at hc ⊢
      have hc2 : Outcome.crash ∉ pass2Outcomes labels n ls :=
        fun h => hc (List.mem_cons_of_mem _ h)
      have := ih n hc2
      have hnn : (parseLabel (pyStripStr l)).isNone = false := by
        rcases Option.isSome_iff_exists.1 hsome with ⟨v, hv⟩
        rw [hv]
        rfl
      simp [countWords, countErrs, List.countP_cons, isWordO, isErrO, nonLabelCount,
        hnn] at this ⊢
      omega
    | err e =>
      have hiff := encodeLine_label_or_crash labels n l
      rw [ho] at hiff
      have hsome : ¬ (parseLabel (pyStripStr l)).isSome = true := by
        intro hs
        rcases hiff.2 hs with h | h <;> exact Outcome.noConfusion h
      have hnone : parseLabel (pyStripStr l) = none := Option.not_isSome_iff_eq_none.1 hsome
      have hoc : pass2Outcomes labels n (l :: ls)
          = Outcome.err e :: pass2Outcomes labels n ls := by
        rw [pass2Outcomes_cons, ho]
      rw [hoc] at hc ⊢
      have hc2 : Outcome.crash ∉ pass2Outcomes labels n ls :=
        fun h => hc (List.mem_cons_of_mem _ h)
      have := ih n hc2
      simp [countWords, countErrs, List.countP_cons, isWordO, isErrO, nonLabelCount,
        hnone] at this ⊢
      omega
    | crash =>
      have hoc : pass2Outcomes labels n (l :: ls)
          = Outcome.crash :: pass2Outcomes labels n ls := by
        rw [pass2Outcomes_cons, ho]
      rw [hoc] at hc
      exact absurd (List.mem_cons_self _ _) hc

lemma pass2Go_append (labels : List (String × Nat)) :
    ∀ (xs ys : List String) (st : List Nat × Nat × Bool),
      pass2Go labels st (xs ++ ys) =
        match pass2Go labels st xs with
        | some st2 => pass2Go labels st2 ys
        | none => none := by
  intro xs
  induction xs with
  | nil => intro ys st; rfl
  | cons l ls ih =>
    intro ys st
    obtain ⟨out, n, err⟩ := st
    rw [List.cons_append, pass2Go_cons, pass2Go_cons]
    cases ho : encodeLine labels n l <;> simp only [ih]

lemma outBytes_length : ∀ os : List Outcome, (outBytes os).length = 2 * countWords os := by
  intro os
  induction os with
  | nil => simp [outBytes, countWords]
  | cons o rest ih =>
    cases o with
    | word f =>
      show (fmtToBytes f ++ outBytes rest).length = _
      have e2 : countWords (Outcome.word f :: rest) = countWords rest + 1 := by
        simp [countWords, List.countP_cons, isWordO]
      rw [e2, List.length_append, ih]
      have e3 : (fmtToBytes f).length = 2 := rfl
      omega
    | label =>
      show (outBytes rest).length = _
      have e2 : countWords (Outcome.label :: rest) = countWords rest := by
        simp [countWords, List.countP_cons, isWordO]
      rw [e2, ih]
    | err e =>
      show (outBytes rest).length = _
      have e2 : countWords (Outcome.err e :: rest) = countWords rest := by
        simp [countWords, List.countP_cons, isWordO]
      rw [e2, ih]
    | crash =>
      show (outBytes rest).length = _
      have e2 : countWords (Outcome.crash :: rest) = countWords rest := by
        simp [countWords, List.countP_cons, isWordO]
      rw [e2, ih]

/-- C4: pass-2 errors are line-local: a failing line records its diagnostic
and the loop continues with the same state but the error flag set; the run
is marked failed iff some line produced an error outcome; a failed run
yields an empty artifact (the file is removed), and an error-free run yields
exactly 2 bytes per encoded instruction. -/
theorem pass2_error_policy (labels : List (String × Nat)) (lines : List String)
    (st : List Nat × Nat × Bool) (hrun : pass2 labels lines = some st) :
    (∀ (out : List Nat) (n : Nat) (err : Bool) (l : String) (ls : List String) (e : String),
        encodeLine labels n l = .err e →
        pass2Go labels (out, n, err) (l :: ls) = pass2Go labels (out, n, true) ls) ∧
    (st.2.2 = true ↔ (pass2Outcomes labels 0 lines).any isErrO = true) ∧
    (st.2.2 = true → assembleOutput labels lines = some []) ∧
    (st.2.2 = false →
      assembleOutput labels lines = some st.1 ∧
      st.1.length = 2 * countWords (pass2Outcomes labels 0 lines)) := by
  obtain ⟨sout, sn, serr⟩ := st
  have hnc : Outcome.crash ∉ pass2Outcomes labels 0 lines := by
    intro hc
    rw [pass2, (pass2Go_spec labels lines [] 0 false).1 hc] at hrun
    cases hrun
  have hst := hrun
  rw [pass2, (pass2Go_spec labels lines [] 0 false).2 hnc] at hst
  have hst2 := Option.some.inj hst
  have ho1 : sout = [] ++ outBytes (pass2Outcomes labels 0 lines) :=
    (congrArg Prod.fst hst2).symm
  have ho3 : serr = (false || (pass2Outcomes labels 0 lines).any isErrO) :=
    (congrArg (fun p => p.2.2) hst2).symm
  simp only [List.nil_append] at ho1
  simp only [Bool.false_or] at ho3
  refine ⟨?_, ?_, ?_, ?_⟩
  · intro out n err l ls e he
    rw [pass2Go_cons, he]
  · rw [ho3]
  · intro herr
    have herr2 : serr = true := herr
    unfold assembleOutput
    rw [hrun]
    show some (if serr then [] else sout) = some []
    rw [herr2]
    rfl
  · intro herr
    have herr2 : serr = false := herr
    unfold assembleOutput
    rw [hrun]
    constructor
    · show some (if serr then [] else sout) = some sout
      rw [herr2]
      rfl
    · show sout.length = _
      rw [ho1, outBytes_length]

/-- Witness for C4: one unresolved-label program gives zero output bytes; an
error-free one-instruction program gives exactly two bytes. -/
theorem pass2_error_policy_witness :
    assembleOutput [] ["beq $t0, $t1, zz"] = some [] ∧
    assembleOutput [] ["add $t0, $zero, $zero"] = some [64, 1] := by
  have h1 := pass2_error_policy [] ["beq $t0, $t1, zz"] ([], 0, true) (by decide)
  have h2 := pass2_error_policy [] ["add $t0, $zero, $zero"] ([64, 1], 1, false) (by decide)
  exact ⟨h1.2.2.1 rfl, (h2.2.2.2 rfl).1⟩

/-- C10: the pass-2 address counter advances only on successfully encoded
lines: after a prefix it equals the number of word outcomes of that prefix,
and the remaining lines are encoded starting from that state; if the prefix
contains a failed line the counter entering the rest is strictly smaller
than the pass-1 address of that position (the count of non-label lines of
the prefix). -/
theorem pass2_address_lag (labels : List (String × Nat)) (pre post : List String)
    (st : List Nat × Nat × Bool) (hpre : pass2 labels pre = some st) (hfail : st.2.2 = true) :
    pass2 labels (pre ++ post) = pass2Go labels st post ∧
    st.2.1 = countWords (pass2Outcomes labels 0 pre) ∧
    st.2.1 < nonLabelCount pre ∧
    (∀ (out : List Nat) (n : Nat) (err : Bool) (l : String) (ls : List String),
      (∀ f, encodeLine labels n l = .word f →
        pass2Go labels (out, n, err) (l :: ls)
          = pass2Go labels (out ++ fmtToBytes f, n + 1, err) ls) ∧
      (encodeLine labels n l = .label →
        pass2Go labels (out, n, err) (l :: ls) = pass2Go labels (out, n, err) ls) ∧
      (∀ e, encodeLine labels n l = .err e →
        pass2Go labels (out, n, err) (l :: ls) = pass2Go labels (out, n, true) ls)) := by
  obtain ⟨sout, sn, serr⟩ := st
  have hnc : Outcome.crash ∉ pass2Outcomes labels 0 pre := by
    intro hc
    rw [pass2, (pass2Go_spec labels pre [] 0 false).1 hc] at hpre
    cases hpre
  have hst := hpre
  rw [pass2, (pass2Go_spec labels pre [] 0 false).2 hnc] at hst
  have hst2 := Option.some.inj hst
  have ho2 : sn = 0 + countWords (pass2Outcomes labels 0 pre) :=
    (congrArg (fun p => p.2.1) hst2).symm
  have ho3 : serr = (false || (pass2Outcomes labels 0 pre).any isErrO) :=
    (congrArg (fun p => p.2.2) hst2).symm
  simp only [Nat.zero_add] at ho2
  simp only [Bool.false_or] at ho3
  have hfail2 : serr = true := hfail
  have hany : (pass2Outcomes labels 0 pre).any isErrO = true := by
    rw [← ho3]
    exact hfail2
  have herrpos : 0 < countErrs (pass2Outcomes labels 0 pre) := by
    obtain ⟨o, hmem, hob⟩ := List.any_eq_true.1 hany
    unfold countErrs
    rw [List.countP_pos_iff]
    exact ⟨o, hmem, hob⟩
  have hcount := counts_nonLabel labels pre 0 hnc
  refine ⟨?_, ho2, ?_, ?_⟩
  · rw [pass2, pass2Go_append labels pre post, ← pass2, hpre]
  · show sn < nonLabelCount pre
    omega
  · intro out n err l ls
    refine ⟨fun f hf => by rw [pass2Go_cons, hf], fun hl => by rw [pass2Go_cons, hl],
      fun e he => by rw [pass2Go_cons, he]⟩

/-- Witness for C10: after an immediate-overflow line the counter (0) is
strictly below the pass-1 address (1). -/
theorem pass2_address_lag_witness :
    pass2 [("xy", 0)] (["addi $t0, $t1, 99"] ++ ["beq $t0, $t1, xy"])
      = pass2Go [("xy", 0)] ([], 0, true) ["beq $t0, $t1, xy"] ∧
    (0 : Nat) < nonLabelCount ["addi $t0, $t1, 99"] := by
  have h := pass2_address_lag [("xy", 0)] ["addi $t0, $t1, 99"] ["beq $t0, $t1, xy"]
    ([], 0, true) (by decide) rfl
  exact ⟨h.1, h.2.2.1⟩

/-- C9 (amended): the classifier returns a label classification exactly when
the label regex matches a prefix of the line, i.e. the line begins with an
identifier followed by a colon; trailing text after the colon is ignored
rather than rejected. -/
theorem label_decl_classification (line : String) :
    ((∃ name, parse line = some [name]) ↔ (parseLabel line).isSome = true) ∧
    (∀ name, parseLabel line = some name → parse line = some [name]) := by
  have hmk : ∀ name : String, parseLabel line = some name → parse line = some [name] := by
    intro name hname
    unfold parseLabel at hname
    cases hc : parseLabelCore line.data with
    | none => rw [hc] at hname; cases hname
    | some d =>
      rw [hc] at hname
      have hd := Option.some.inj hname
      rw [← hd]
      exact parse_some_label hc
  refine ⟨⟨?_, ?_⟩, hmk⟩
  · rintro ⟨name, hp⟩
    rcases parse_some_inv hp with ⟨w, a, b, c, hw, hg⟩ | ⟨lbl, hg⟩ | ⟨nm, hname, hg⟩
    · simp at hg
    · simp at hg
    · simp [parseLabel, hname]
  · intro h
    obtain ⟨name, hname⟩ := Option.isSome_iff_exists.1 h
    exact ⟨name, hmk name hname⟩

/-- Witness for C9's amended statement on a bare label declaration. -/
theorem label_decl_classification_witness :
    parse "xy:" = some ["xy"] :=
  (label_decl_classification "xy:").2 "xy" (by decide)
